import Mathlib

/-!
Verification of the conversational shopping-assistant helpers in `app.py`.

The Python helpers are shallowly embedded as executable Lean functions:

* Python `float` values are modelled as exact rationals (`ℚ`).  Every number
  manipulated by the program is produced by parsing short decimal strings, so
  the rational model agrees with the float model on all properties stated here
  (sign, ordering, and which parses succeed); only the final `%.2f` rendering
  could differ on ties of the binary representation, which no claim exercises.
* Python strings are modelled as `List Char` (converted from `String` at the
  boundaries).  `str.lower()` is modelled by `Char.toLower`, which agrees with
  Python on ASCII; all matching performed by the program is against ASCII
  pattern literals.
* heterogeneous JSON fields (absent / string / list / number) are modelled by
  small sum types, mirroring exactly the `isinstance` tests the code performs.
* the regex fragments used by the code are small and concrete, and are
  embedded by a direct implementation of their backtracking semantics,
  documented at each definition.
-/

namespace App

/-- Python whitespace test for the ASCII range: the characters matched by the
regex class `\s` (space, tab, newline, carriage return, vertical tab, form
feed). -/
def isWs (c : Char) : Bool :=
  c == ' ' || c == '\t' || c == '\n' || c == '\r' || c == '\x0b' || c == '\x0c'

/-- Value of a list of decimal digit characters, most significant first. -/
def digitsToNat (cs : List Char) : Nat :=
  cs.foldl (fun a c => a * 10 + (c.toNat - 48)) 0

/-- Value denoted by a token matched by the regex `\d+\.?\d*`: an integer part
`ip` and a (possibly empty) fractional part `fp`. -/
def tokenToRat (ip fp : List Char) : ℚ :=
  (digitsToNat ip : ℚ) + (digitsToNat fp : ℚ) / 10 ^ fp.length

/-- First match of `re.findall(r'\d+\.?\d*', ...)` on a string: scan left to
right for the first digit, take the maximal digit run, then optionally one
dot followed by a maximal digit run.  Returns the integer and fractional
digit lists of the leftmost match, or `none` when the string has no digit. -/
def findFirstNumber : List Char → Option (List Char × List Char)
  | [] => Option.none
  | c :: rest =>
    if c.isDigit then
      let ip := (c :: rest).takeWhile Char.isDigit
      let r2 := (c :: rest).dropWhile Char.isDigit
      match r2 with
      | '.' :: r3 => Option.some (ip, r3.takeWhile Char.isDigit)
      | _ => Option.some (ip, [])
    else findFirstNumber rest

/-- Heterogeneous price representation accepted by `extract_price`: the value
of `product.get("price_str")` / `product.get("price")` may be absent (`None`),
a string, or a list of strings. -/
inductive PriceInput
  | none
  | str (s : String)
  | list (l : List String)
deriving DecidableEq

/-- Python truthiness test `if not price_str` for the three input shapes:
`None`, the empty string and the empty list are falsy. -/
def pyFalsyPrice : PriceInput → Bool
  | PriceInput.none => true
  | PriceInput.str s => s.data.isEmpty
  | PriceInput.list l => l.isEmpty

/-- Character list the cleaning regex runs on, after the code's
`price_str = price_str[0] if price_str else "0"` list unwrapping and `str()`
coercion (`str(None) = "None"`; that branch is unreachable because `None` is
falsy and already handled). -/
def priceSource : PriceInput → List Char
  | PriceInput.none => "None".data
  | PriceInput.str s => s.data
  | PriceInput.list l => (l.headD "0").data

/-- Cleaning pass of `extract_price`: `re.sub(r'[^\d.,]', '', s)` keeps only
digits, dots and commas, then `.replace(',', '.')` turns commas into dots. -/
def cleanChars (cs : List Char) : List Char :=
  (cs.filter fun c => c.isDigit || c == '.' || c == ',').map
    fun c => if c == ',' then '.' else c

/-- Embedding of `extract_price` (`app.py` lines 68-84).  Falsy input yields
`0.0`; otherwise the input is unwrapped, cleaned, and the first `\d+\.?\d*`
match is converted to a number (the `float` conversion of such a match never
raises, so the `except ValueError` branch is dead code). -/
def extract_price (p : PriceInput) : ℚ :=
  if pyFalsyPrice p then 0
  else
    match findFirstNumber (cleanChars (priceSource p)) with
    | Option.some (ip, fp) => tokenToRat ip fp
    | Option.none => 0

/-- Heterogeneous delivery field: absent, a string, or a list of strings. -/
inductive DeliveryInput
  | none
  | str (s : String)
  | list (l : List String)
deriving DecidableEq

/-- Python truthiness test `if not delivery_info`. -/
def deliveryFalsy : DeliveryInput → Bool
  | DeliveryInput.none => true
  | DeliveryInput.str s => s.data.isEmpty
  | DeliveryInput.list l => l.isEmpty

/-- Embedding of `format_delivery` (`app.py` lines 86-93).  Falsy input yields
the fixed string `"Standard"`; a list contributes its first element truncated
to 30 characters; anything else is `str()`-coerced and truncated to 30
characters (`str(None) = "None"`, unreachable because `None` is falsy). -/
def format_delivery (d : DeliveryInput) : String :=
  if deliveryFalsy d then "Standard"
  else
    match d with
    | DeliveryInput.list l =>
      match l with
      | [] => "Standard"
      | s :: _ => String.mk (s.data.take 30)
    | DeliveryInput.str s => String.mk (s.data.take 30)
    | DeliveryInput.none => String.mk ("None".data.take 30)

/-- Consume a literal pattern fragment from the front of the input: `some`
with the remaining input when the literal is a prefix, `none` otherwise. -/
def dropLit? : List Char → List Char → Option (List Char)
  | [], cs => Option.some cs
  | _ :: _, [] => Option.none
  | p :: ps, c :: cs => if p = c then dropLit? ps cs else Option.none

/-- One alternative `\s+word` of the terminator group
`(?:\s+entre|\s+dans|\s+à|\s+pour|\.|$)`: at least one whitespace character,
then the literal word.  The greedy `\s+` cannot profitably backtrack here
because each word starts with a non-whitespace character, so the literal can
only start at the end of the maximal whitespace run. -/
def termAlt (word : List Char) (cs : List Char) : Bool :=
  !(cs.takeWhile isWs).isEmpty && word.isPrefixOf (cs.dropWhile isWs)

/-- The alternative `\.` of the terminator group: a literal dot at the
current position. -/
def headDot : List Char → Bool
  | [] => false
  | c :: _ => c == '.'

/-- The alternative `$` of the terminator group: without `re.MULTILINE` the
anchor matches at the end of the string or just before a trailing newline. -/
def atEnd : List Char → Bool
  | [] => true
  | c :: rest => c == '\n' && rest.isEmpty

/-- The terminator group `(?:\s+entre|\s+dans|\s+à|\s+pour|\.|$)` of the three
search patterns, tested at the current input position. -/
def checkTerm (cs : List Char) : Bool :=
  termAlt "entre".data cs || termAlt "dans".data cs || termAlt "à".data cs ||
    termAlt "pour".data cs || headDot cs || atEnd cs

/-- Lazy expansion of the capture group `(.+?)` followed by the terminator
group: `acc` is the content captured so far (at least one character); the
terminator is tried at the current position first, and on failure one more
character (any character except `'\n'`, since `re.DOTALL` is not set) is
captured. -/
def lazyLoop : List Char → List Char → Option (List Char)
  | acc, [] => if checkTerm [] then Option.some acc else Option.none
  | acc, c :: rs =>
    if checkTerm (c :: rs) then Option.some acc
    else if c = '\n' then Option.none
    else lazyLoop (acc ++ [c]) rs

/-- The group `(.+?)` must capture at least one character before the
terminator is first tried. -/
def lazyContent : List Char → Option (List Char)
  | [] => Option.none
  | c :: rs => if c = '\n' then Option.none else lazyLoop [c] rs

/-- Backtracking over the greedy `\s+` separating the trigger word from the
capture group: `k` whitespace characters are consumed, longest first. -/
def tryWs : List Char → Nat → Option (List Char)
  | _, 0 => Option.none
  | cs, k + 1 =>
    match lazyContent (cs.drop (k + 1)) with
    | Option.some q => Option.some q
    | Option.none => tryWs cs k

/-- The pattern tail `\s+(.+?)(?:\s+entre|\s+dans|\s+à|\s+pour|\.|$)` matched
at the current position: the maximal whitespace run is consumed first and
released one character at a time on failure. -/
def tailMatch (cs : List Char) : Option (List Char) :=
  tryWs cs (cs.takeWhile isWs).length

/-- Attempt to match one full search pattern at the current position.  `stem`
is the literal trigger word and `optS` records a trailing `s?` (greedy: the
`'s'` is consumed first and released if the tail cannot match). -/
def matchAt (stem : List Char) (optS : Bool) (cs : List Char) : Option (List Char) :=
  match dropLit? stem cs with
  | Option.none => Option.none
  | Option.some rest =>
    if optS then
      match rest with
      | 's' :: r2 =>
        match tailMatch r2 with
        | Option.some q => Option.some q
        | Option.none => tailMatch rest
      | _ => tailMatch rest
    else tailMatch rest

/-- `re.search` semantics for one search pattern: the match is attempted at
every position, left to right, and the first success wins. -/
def searchFrom (stem : List Char) (optS : Bool) : List Char → Option (List Char)
  | [] => matchAt stem optS []
  | c :: rs =>
    match matchAt stem optS (c :: rs) with
    | Option.some q => Option.some q
    | Option.none => searchFrom stem optS rs

/-- Attempt to match the budget pattern `entre\s+(\d+)\s*(?:et|à|-)\s*(\d+)`
at the current position.  The greedy `\d+`, `\s+` and `\s*` pieces need no
backtracking: each is followed by a literal that cannot match a character of
its own class, so only the maximal run can succeed. -/
def budgetMatchAt (cs : List Char) : Option (Nat × Nat) :=
  match dropLit? "entre".data cs with
  | Option.none => Option.none
  | Option.some r1 =>
    if (r1.takeWhile isWs).isEmpty then Option.none
    else
      let r2 := r1.dropWhile isWs
      let d1 := r2.takeWhile Char.isDigit
      if d1.isEmpty then Option.none
      else
        let r3 := r2.drop d1.length
        let r4 := r3.dropWhile isWs
        let sep? : Option (List Char) :=
          match dropLit? "et".data r4 with
          | Option.some r5 => Option.some r5
          | Option.none =>
            match dropLit? "à".data r4 with
            | Option.some r5 => Option.some r5
            | Option.none => dropLit? "-".data r4
        match sep? with
        | Option.none => Option.none
        | Option.some r5 =>
          let r6 := r5.dropWhile isWs
          let d2 := r6.takeWhile Char.isDigit
          if d2.isEmpty then Option.none
          else Option.some (digitsToNat d1, digitsToNat d2)

/-- `re.search` semantics for the budget pattern. -/
def budgetSearchFrom : List Char → Option (Nat × Nat)
  | [] => budgetMatchAt []
  | c :: rs =>
    match budgetMatchAt (c :: rs) with
    | Option.some b => Option.some b
    | Option.none => budgetSearchFrom rs

/-- Python `str.strip()`: remove whitespace from both ends. -/
def pyStrip (cs : List Char) : List Char :=
  ((cs.dropWhile isWs).reverse.dropWhile isWs).reverse

/-- One conversation turn, a dictionary with a `role` key and an optional
`content` key (`.get('content', '')` supplies `''` when the key is absent). -/
structure Turn where
  role : String
  content : Option String
deriving DecidableEq

/-- Search intent returned by `extract_search_intent`: a query string and a
price band. -/
structure Intent where
  query : String
  min_price : ℚ
  max_price : ℚ
deriving DecidableEq

/-- Build the intent dictionary from the captured query and the lowered
message: the query is stripped, and the budget defaults to `(0, 1000)` when
the budget pattern does not match. -/
def mkIntent (q text : List Char) : Intent :=
  match budgetSearchFrom text with
  | Option.some (a, b) => { query := String.mk (pyStrip q), min_price := (a : ℚ), max_price := (b : ℚ) }
  | Option.none => { query := String.mk (pyStrip q), min_price := 0, max_price := 1000 }

/-- Embedding of `extract_search_intent` (`app.py` lines 183-214).  The empty
history yields `None`; otherwise the last turn's text is lowered and the three
trigger patterns `cherchons?…`, `recherche…`, `regardons?…` are tried in
order; the first that matches supplies the query, and the budget pattern is
searched in the same lowered text. -/
def extract_search_intent (history : List Turn) : Option Intent :=
  match history.getLast? with
  | Option.none => Option.none
  | Option.some last =>
    let text := ((last.content).getD "").data.map Char.toLower
    match searchFrom "cherchon".data true text with
    | Option.some q => Option.some (mkIntent q text)
    | Option.none =>
      match searchFrom "recherche".data false text with
      | Option.some q => Option.some (mkIntent q text)
      | Option.none =>
        match searchFrom "regardon".data true text with
        | Option.some q => Option.some (mkIntent q text)
        | Option.none => Option.none

/-- A JSON field that may hold a number or a string (the shapes distinguished
by the code's `isinstance(…, str)` tests on `rating` and `ratings_total`). -/
inductive NumOrStr
  | num (q : ℚ)
  | str (s : String)
deriving DecidableEq

/-- First whitespace-separated token of a string (`s.split()[0]`), or `none`
when the string has no token (Python raises `IndexError`, caught by the bare
`except`). -/
def firstToken (cs : List Char) : Option (List Char) :=
  let t := (cs.dropWhile isWs).takeWhile fun c => !isWs c
  if t.isEmpty then Option.none else Option.some t

/-- Modelled subset of Python `float()` on a stripped token: optional sign,
then digits with at most one dot and at least one digit overall ("1", "1.5",
".5", "2."); exponents, `inf` and `nan` are not modelled (no such rating
strings occur in the API's `"x out of 5"`-shaped fields). -/
def pyFloat? (cs : List Char) : Option ℚ :=
  let signRest : Bool × List Char :=
    match cs with
    | '-' :: r => (true, r)
    | '+' :: r => (false, r)
    | r => (false, r)
  let ip := signRest.2.takeWhile Char.isDigit
  let r2 := signRest.2.drop ip.length
  let val? : Option ℚ :=
    match r2 with
    | [] => if ip.isEmpty then Option.none else Option.some (digitsToNat ip : ℚ)
    | '.' :: r3 =>
      if r3.all Char.isDigit && (!ip.isEmpty || !r3.isEmpty) then
        Option.some ((digitsToNat ip : ℚ) + (digitsToNat r3 : ℚ) / 10 ^ r3.length)
      else Option.none
    | _ => Option.none
  match val? with
  | Option.some v => Option.some (if signRest.1 then -v else v)
  | Option.none => Option.none

/-- Value of a string-shaped rating field: `float(rating.split()[0])`, or
`none` when the split yields no token or the token fails to parse. -/
def ratingStrVal (s : String) : Option ℚ :=
  match firstToken s.data with
  | Option.none => Option.none
  | Option.some t => pyFloat? t

/-- Rating normalisation of `fetch_amazon_products` (lines 118-123): absent
field defaults to `0`; a string field is parsed with `float(….split()[0])`
and any failure is caught and replaced by `0`; a numeric field is kept. -/
def parseRating : Option NumOrStr → ℚ
  | Option.none => 0
  | Option.some (NumOrStr.num q) => q
  | Option.some (NumOrStr.str s) =>
    match ratingStrVal s with
    | Option.some v => v
    | Option.none => 0

/-- Review-count normalisation (lines 125-127): absent field defaults to `0`;
a string field keeps only its digit characters (`re.sub(r'[^\d]', '', …)`)
and an all-stripped string falls back to `0` via `… or 0`; a numeric field is
kept. -/
def parseReviews : Option NumOrStr → ℚ
  | Option.none => 0
  | Option.some (NumOrStr.num q) => q
  | Option.some (NumOrStr.str s) => (digitsToNat (s.data.filter Char.isDigit) : ℚ)

/-- One entry of the search API's `organic_results`, restricted to the fields
the code reads.  `Option.none` models an absent key; `price_str` uses
`PriceInput.none` for absence because `product.get("price_str")` defaults to
`None` and is then tested for truthiness. -/
structure RawProduct where
  title : Option String
  price_str : PriceInput
  price : Option PriceInput
  rating : Option NumOrStr
  ratings_total : Option NumOrStr
  link : Option String
  snippet : Option String
  image : Option String
  delivery : Option DeliveryInput
  prime : Option Bool
deriving DecidableEq

/-- The price representation handed to `extract_price`:
`product.get("price_str") or product.get("price", "0")` — the `price` field
(defaulting to the string `"0"`) is used whenever `price_str` is falsy. -/
def priceField (p : RawProduct) : PriceInput :=
  if pyFalsyPrice p.price_str then p.price.getD (PriceInput.str "0") else p.price_str

/-- Round a rational to the nearest integer, ties to even — the rounding of
Python's `%.2f` format (up to the float caveat in the file header). -/
def roundHalfEven (q : ℚ) : ℤ :=
  let f := Rat.floor q
  let frac := q - f
  if frac < 1 / 2 then f
  else if frac > 1 / 2 then f + 1
  else if f % 2 = 0 then f else f + 1

/-- Digits of `n % 100` padded to two places, for the cents of a price. -/
def twoDigits (n : Nat) : List Char :=
  if n < 10 then '0' :: Nat.toDigits 10 n else Nat.toDigits 10 n

/-- Decimal rendering of a price with two fractional digits (`f"{v:.2f}"`),
for a non-negative value. -/
def formatTwoDec (q : ℚ) : List Char :=
  let cents := (roundHalfEven (q * 100)).toNat
  Nat.toDigits 10 (cents / 100) ++ '.' :: twoDigits (cents % 100)

/-- Price string stored in a product record (line 132):
`f"${price_val:.2f}"` when the normalized price is positive, otherwise the
fixed fallback text. -/
def priceString (q : ℚ) : String :=
  if q > 0 then String.mk ('$' :: formatTwoDec q) else "Prix non disponible"

/-- Normalized product record built by `fetch_amazon_products`
(lines 129-140). -/
structure Product where
  title : String
  price : ℚ
  price_str : String
  rating : ℚ
  reviews_count : ℚ
  link : String
  description : String
  image : String
  delivery : DeliveryInput
  prime : Bool
deriving DecidableEq

/-- Record construction for one organic result (lines 129-140), with the
dictionary defaults of each `get` call. -/
def mkRecord (p : RawProduct) : Product :=
  let price_val := extract_price (priceField p)
  { title := p.title.getD "Produit sans titre"
    price := price_val
    price_str := priceString price_val
    rating := parseRating p.rating
    reviews_count := parseReviews p.ratings_total
    link := p.link.getD ""
    description := p.snippet.getD "Description non disponible"
    image := p.image.getD ""
    delivery := p.delivery.getD (DeliveryInput.str "")
    prime := p.prime.getD false }

/-- Price-band test of line 117: `min_price <= price_val <= max_price` on the
normalized price. -/
def inBand (minP maxP : ℚ) (p : RawProduct) : Bool :=
  decide (minP ≤ extract_price (priceField p)) && decide (extract_price (priceField p) ≤ maxP)

/-- One loop iteration: an organic result contributes a record exactly when
its normalized price lies in the requested band. -/
def buildProduct (minP maxP : ℚ) (p : RawProduct) : Option Product :=
  if inBand minP maxP p then Option.some (mkRecord p) else Option.none

/-- Sort key of line 142: the pair `(rating, reviews_count)`. -/
def prodKey (p : Product) : ℚ × ℚ :=
  (p.rating, p.reviews_count)

/-- Order produced by `products.sort(key=lambda x: (x["rating"],
x["reviews_count"]), reverse=True)`: `a` may precede `b` iff `a`'s key is
lexicographically greater than or equal to `b`'s.  Python's sort is stable and
`reverse=True` flips comparisons without disturbing equal-key order, so its
output is the unique stable descending arrangement — the result of a stable
insertion sort under this total preorder. -/
def keyGe (a b : Product) : Prop :=
  b.rating < a.rating ∨ (b.rating = a.rating ∧ b.reviews_count ≤ a.reviews_count)

/-- Strict version of `keyGe`: `a`'s key is lexicographically greater. -/
def keyGt (a b : Product) : Prop :=
  b.rating < a.rating ∨ (b.rating = a.rating ∧ b.reviews_count < a.reviews_count)

instance : DecidableRel keyGe := by
  intro a b
  unfold keyGe
  infer_instance

instance : DecidableRel keyGt := by
  intro a b
  unfold keyGt
  infer_instance

instance : IsTotal Product keyGe where
  total a b := by
    unfold keyGe
    rcases lt_trichotomy a.rating b.rating with h | h | h
    · exact Or.inr (Or.inl h)
    · rcases le_total a.reviews_count b.reviews_count with h2 | h2
      · exact Or.inr (Or.inr ⟨h, h2⟩)
      · exact Or.inl (Or.inr ⟨h.symm, h2⟩)
    · exact Or.inl (Or.inl h)

instance : IsTrans Product keyGe where
  trans a b c hab hbc := by
    unfold keyGe at *
    rcases hab with h1 | ⟨e1, r1⟩
    · rcases hbc with h2 | ⟨e2, r2⟩
      · exact Or.inl (h2.trans h1)
      · exact Or.inl (e2 ▸ h1)
    · rcases hbc with h2 | ⟨e2, r2⟩
      · exact Or.inl (e1 ▸ h2)
      · exact Or.inr ⟨e2.trans e1, r2.trans r1⟩

/-- Ranking step of `fetch_amazon_products` (lines 142-143): stable descending
sort by `(rating, reviews_count)`, then truncation to the requested count. -/
def rankProducts (ps : List Product) (n : Nat) : List Product :=
  (List.insertionSort keyGe ps).take n

/-- Outcome of the search-API call, as observed by the `try` block: the
request may raise (`requests.get`), the status may be unsuccessful
(`raise_for_status`), the body may fail to parse (`response.json()`), or a
JSON object is obtained, whose `organic_results` key may be absent. -/
inductive ApiResponse
  | requestException (msg : String)
  | httpError (status : Nat)
  | malformedJson (body : String)
  | success (organic_results : Option (List RawProduct))
deriving DecidableEq

/-- Whether the call failed before yielding a JSON object. -/
def isFailure : ApiResponse → Bool
  | ApiResponse.requestException _ => true
  | ApiResponse.httpError _ => true
  | ApiResponse.malformedJson _ => true
  | ApiResponse.success _ => false

/-- Embedding of `fetch_amazon_products` (lines 95-147) over an observed call
outcome.  Every failure is caught by the surrounding `except Exception` and
converted to the empty list (after a `st.error` warning); a successful
response has its `organic_results` (defaulting to `[]`) filtered by price
band, normalized, sorted and truncated.  The Python defaults are
`min_price=0`, `max_price=1000`, `num_results=4`. -/
def fetch_amazon_products (resp : ApiResponse) (min_price max_price : ℚ) (num_results : Nat) : List Product :=
  match resp with
  | ApiResponse.requestException _ => []
  | ApiResponse.httpError _ => []
  | ApiResponse.malformedJson _ => []
  | ApiResponse.success org =>
    rankProducts ((org.getD []).filterMap (buildProduct min_price max_price)) num_results

/-- Outcome of the chat-completion call made by `chat_with_assistant`. -/
inductive ChatOutcome
  | success (text : String)
  | failure (err : String)
deriving DecidableEq

/-- The fixed fallback sentence of the effective `chat_with_assistant`
definition (line 475). -/
def chat_fallback : String :=
  "Désolé, j'ai un petit souci technique... Pouvez-vous répéter ? 😅"

/-- Embedding of `chat_with_assistant` over an observed call outcome.  The
file defines `chat_with_assistant` twice (lines 149-181 and 442-475); the
second definition shadows the first, so the program's effective behavior is
the second one, whose `except` branch ignores the exception and returns the
fixed fallback sentence.  On success the completion text is returned
stripped. -/
def chat_with_assistant (user_message : String) (conversation_history : List Turn)
    (user_context : List (String × String)) (outcome : ChatOutcome) : String :=
  match outcome with
  | ChatOutcome.success t => String.mk (pyStrip t.data)
  | ChatOutcome.failure _ => chat_fallback

/-! ### Helper lemmas -/

theorem getLast?_append_singleton {α : Type} (l : List α) (a : α) :
    (l ++ [a]).getLast? = Option.some a := by
  rw [List.getLast?_append_cons]
  rfl

theorem isEmpty_false_of_ne_nil {α : Type} {l : List α} (h : l ≠ []) : l.isEmpty = false := by
  cases l with
  | nil => exact absurd rfl h
  | cons a l => rfl

/-! ### C8: `extract_price` is total and non-negative -/

/-- C8.  `extract_price` is total on all three input shapes — the embedding is
a total function, mirroring that every Python code path returns (the single
`try` around `float` guards a conversion that cannot fail on a `\d+\.?\d*`
match) — and its result is always non-negative: the digit-built value of the
first number found, or `0`. -/
theorem spec_c8_extract_price_nonneg (p : PriceInput) : 0 ≤ extract_price p := by
  unfold extract_price
  split
  · exact le_refl 0
  · split
    · unfold tokenToRat
      positivity
    · exact le_refl 0

/-! ### C9: `format_delivery` truncation and falsy default -/

/-- C9.  `format_delivery` always returns at most 30 characters, and returns
the fixed string `"Standard"` on every falsy input (`None`, `""`, `[]`). -/
theorem spec_c9_format_delivery (d : DeliveryInput) :
    (format_delivery d).length ≤ 30 ∧
      (deliveryFalsy d = true → format_delivery d = "Standard") := by
  constructor
  · unfold format_delivery
    split
    · decide
    · split
      · split
        · decide
        · show (List.take 30 _).length ≤ 30
          exact le_trans (List.length_take_le 30 _) (le_refl 30)
      · show (List.take 30 _).length ≤ 30
        exact le_trans (List.length_take_le 30 _) (le_refl 30)
      · show (List.take 30 _).length ≤ 30
        exact le_trans (List.length_take_le 30 _) (le_refl 30)
  · intro h
    unfold format_delivery
    rw [if_pos h]

/-- Witness for C9 at concrete inputs: the falsy input `None` yields
`"Standard"`, and a 64-character delivery string is truncated to at most 30
characters. -/
theorem spec_c9_witness :
    deliveryFalsy DeliveryInput.none = true ∧
      format_delivery DeliveryInput.none = "Standard" ∧
      (format_delivery (DeliveryInput.str "Livraison GRATUITE le mardi 12 mars pour votre premiere commande")).length ≤ 30 :=
  ⟨by decide, (spec_c9_format_delivery DeliveryInput.none).2 (by decide),
    (spec_c9_format_delivery (DeliveryInput.str "Livraison GRATUITE le mardi 12 mars pour votre premiere commande")).1⟩

/-! ### C6: search-API failures yield the empty list -/

/-- C6.  Every failure of the product-search call — request exception,
non-success HTTP status, or malformed JSON body — is caught inside
`fetch_amazon_products` and converted to the empty list; nothing propagates
to the caller. -/
theorem spec_c6_fetch_failure_empty (resp : ApiResponse) (minP maxP : ℚ) (n : Nat)
    (h : isFailure resp = true) :
    fetch_amazon_products resp minP maxP n = [] := by
  cases resp with
  | requestException m => rfl
  | httpError s => rfl
  | malformedJson b => rfl
  | success org => simp [isFailure] at h

/-- Witness for C6: a 500 status yields the empty list (with the Python
default arguments `min_price=0`, `max_price=1000`, `num_results=4`). -/
theorem spec_c6_witness :
    isFailure (ApiResponse.httpError 500) = true ∧
      fetch_amazon_products (ApiResponse.httpError 500) 0 1000 4 = [] :=
  ⟨by decide, spec_c6_fetch_failure_empty (ApiResponse.httpError 500) 0 1000 4 (by decide)⟩

/-! ### C7: chat failures yield a fixed fallback string -/

/-- C7.  For every user message, history and context, a failing
chat-completion call makes `chat_with_assistant` return the fixed fallback
sentence, independent of the particular error.  (The file contains two
definitions of `chat_with_assistant`; the second shadows the first, and its
fallback ignores the exception object.) -/
theorem spec_c7_chat_fallback_fixed (m : String) (hist : List Turn)
    (ctx : List (String × String)) (e : String) :
    chat_with_assistant m hist ctx (ChatOutcome.failure e) = chat_fallback := rfl

/-! ### C10: empty history and missing content key -/

/-- C10.  `extract_search_intent` returns `None` on the empty history without
raising, and a history whose last turn lacks a `content` key is treated as
having empty text, which also yields `None`. -/
theorem spec_c10_intent_degenerate_histories :
    extract_search_intent [] = Option.none ∧
      ∀ (pre : List Turn) (role : String),
        extract_search_intent (pre ++ [{ role := role, content := Option.none }]) = Option.none := by
  constructor
  · rfl
  · intro pre role
    unfold extract_search_intent
    rw [getLast?_append_singleton]
    rfl

/-! ### C5: malformed rating / review-count fields default to zero -/

/-- C5.  In the record built by `fetch_amazon_products`, an absent rating
field, or a string rating whose first token fails to parse as a float, yields
rating `0`; an absent review-count field, or a string review count with no
digit characters, yields review count `0`.  The embedding is total, mirroring
that the Python parse failures are caught (`except` / the `or 0` fallback)
rather than raised. -/
theorem spec_c5_malformed_fields_default_zero (p : RawProduct) :
    ((p.rating = Option.none ∨
        ∃ s, p.rating = Option.some (NumOrStr.str s) ∧ ratingStrVal s = Option.none) →
      (mkRecord p).rating = 0) ∧
    ((p.ratings_total = Option.none ∨
        ∃ s, p.ratings_total = Option.some (NumOrStr.str s) ∧ s.data.filter Char.isDigit = []) →
      (mkRecord p).reviews_count = 0) := by
  constructor
  · intro h
    show parseRating p.rating = 0
    rcases h with h | ⟨s, hs, hv⟩
    · rw [h]
      rfl
    · rw [hs]
      simp [parseRating, hv]
  · intro h
    show parseReviews p.ratings_total = 0
    rcases h with h | ⟨s, hs, hd⟩
    · rw [h]
      rfl
    · rw [hs]
      simp [parseReviews, hd, digitsToNat]

/-- Concrete organic result whose rating text has no parsable number and
whose review-count text has no digits. -/
def rawMalformed : RawProduct :=
  { title := Option.some "Produit X"
    price_str := PriceInput.str "$10"
    price := Option.none
    rating := Option.some (NumOrStr.str "excellent produit")
    ratings_total := Option.some (NumOrStr.str "n/a")
    link := Option.none
    snippet := Option.none
    image := Option.none
    delivery := Option.none
    prime := Option.none }

/-- Witness for C5: both malformed fields of `rawMalformed` default to 0. -/
theorem spec_c5_witness :
    (mkRecord rawMalformed).rating = 0 ∧ (mkRecord rawMalformed).reviews_count = 0 :=
  ⟨(spec_c5_malformed_fields_default_zero rawMalformed).1
      (Or.inr ⟨"excellent produit", rfl, by decide⟩),
    (spec_c5_malformed_fields_default_zero rawMalformed).2
      (Or.inr ⟨"n/a", rfl, by decide⟩)⟩

/-! ### C4: the ranking step sorts descending and truncates -/

theorem sorted_keyGt_of_sorted_keyGe {l : List Product}
    (hs : List.Sorted keyGe l) (hd : l.Pairwise fun a b => prodKey a ≠ prodKey b) :
    List.Sorted keyGt l := by
  have hs' : l.Pairwise keyGe := hs
  show l.Pairwise keyGt
  rw [List.pairwise_iff_forall_sublist] at hs' hd ⊢
  intro a b hab
  have h1 := hs' hab
  have h2 := hd hab
  rcases h1 with h | ⟨e, r⟩
  · exact Or.inl h
  · refine Or.inr ⟨e, lt_of_le_of_ne r ?_⟩
    intro hr
    exact h2 (by simp [prodKey, e, hr])

/-- C4.  For product lists with pairwise-distinct `(rating, reviews_count)`
keys, the ranking step of `fetch_amazon_products` is exactly a stable sort in
strictly descending key order followed by truncation to the requested count:
it equals the sorted list cut at `n`, the sorted list is a permutation of the
input, it is strictly descending, and the output length is `min n |ps|`.
(The stability clause — equal keys keep their original order — is the
stability of the embedded insertion sort, vacuous under the distinctness
hypothesis.) -/
theorem spec_c4_ranking_sorts_and_truncates (ps : List Product) (n : Nat)
    (hd : ps.Pairwise fun a b => prodKey a ≠ prodKey b) :
    rankProducts ps n = (List.insertionSort keyGe ps).take n ∧
      (List.insertionSort keyGe ps).Perm ps ∧
      List.Sorted keyGt (List.insertionSort keyGe ps) ∧
      (rankProducts ps n).length = min n ps.length := by
  refine ⟨rfl, List.perm_insertionSort keyGe ps, ?_, ?_⟩
  · apply sorted_keyGt_of_sorted_keyGe (List.sorted_insertionSort keyGe ps)
    exact ((List.perm_insertionSort keyGe ps).pairwise_iff fun h e => h e.symm).2 hd
  · simp [rankProducts, List.length_insertionSort]

/-- A default product record used to build small concrete examples. -/
def baseProduct : Product :=
  { title := "T"
    price := 20
    price_str := "$20.00"
    rating := 0
    reviews_count := 0
    link := ""
    description := ""
    image := ""
    delivery := DeliveryInput.str ""
    prime := false }

/-- Three records with pairwise-distinct sort keys, out of order. -/
def sampleProducts : List Product :=
  [{ baseProduct with rating := 4, reviews_count := 10 },
    { baseProduct with rating := 5, reviews_count := 3 },
    { baseProduct with rating := 4, reviews_count := 50 }]

/-- Witness for C4: ranking the three sample records with requested count 2
keeps the two largest keys in descending order. -/
theorem spec_c4_witness :
    (sampleProducts.Pairwise fun a b => prodKey a ≠ prodKey b) ∧
      (rankProducts sampleProducts 2 = (List.insertionSort keyGe sampleProducts).take 2 ∧
        (List.insertionSort keyGe sampleProducts).Perm sampleProducts ∧
        List.Sorted keyGt (List.insertionSort keyGe sampleProducts) ∧
        (rankProducts sampleProducts 2).length = min 2 sampleProducts.length) :=
  ⟨by decide, spec_c4_ranking_sorts_and_truncates sampleProducts 2 (by decide)⟩

/-! ### C2: the value extracted from a price string -/

theorem head_nondigit_of_takeWhile_nil {t : Char} {ts : List Char}
    (h : (t :: ts).takeWhile Char.isDigit = []) : t.isDigit = false := by
  cases hd : t.isDigit with
  | false => rfl
  | true =>
    rw [List.takeWhile_cons, hd] at h
    simp at h

theorem takeWhile_eq_nil_of_head {p : Char → Bool} :
    ∀ (l : List Char), (∀ c ∈ l, p c = false) → l.takeWhile p = []
  | [], _ => rfl
  | c :: l, h => by
    simp only [List.takeWhile_cons, h c (List.mem_cons_self c l)]
    rfl

/-- A maximal digit run followed by a non-digit boundary is what `takeWhile`
returns. -/
theorem run_take :
    ∀ (ds tail : List Char), (∀ c ∈ ds, c.isDigit = true) →
      tail.takeWhile Char.isDigit = [] →
      (ds ++ tail).takeWhile Char.isDigit = ds
  | [], tail, _, ht => by simpa using ht
  | d :: ds, tail, h, ht => by
    rw [List.cons_append, List.takeWhile_cons, h d (List.mem_cons_self d ds)]
    rw [if_pos rfl, run_take ds tail (fun c hc => h c (List.mem_cons_of_mem d hc)) ht]

/-- Dropping a maximal digit run leaves the tail. -/
theorem run_drop :
    ∀ (ds tail : List Char), (∀ c ∈ ds, c.isDigit = true) →
      tail.takeWhile Char.isDigit = [] →
      (ds ++ tail).dropWhile Char.isDigit = tail
  | [], tail, _, ht => by
    cases tail with
    | nil => rfl
    | cons t ts =>
      rw [List.nil_append, List.dropWhile_cons, head_nondigit_of_takeWhile_nil ht]
      rfl
  | d :: ds, tail, h, ht => by
    rw [List.cons_append, List.dropWhile_cons, h d (List.mem_cons_self d ds)]
    rw [if_pos rfl, run_drop ds tail (fun c hc => h c (List.mem_cons_of_mem d hc)) ht]

theorem findFirstNumber_append_nondigit :
    ∀ (a b : List Char), (∀ c ∈ a, c.isDigit = false) →
      findFirstNumber (a ++ b) = findFirstNumber b
  | [], _, _ => rfl
  | c :: a, b, h => by
    have hc : c.isDigit = false := h c (List.mem_cons_self c a)
    simp only [List.cons_append, findFirstNumber, hc]
    simp only [Bool.false_eq_true, if_false]
    exact findFirstNumber_append_nondigit a b fun d hd => h d (List.mem_cons_of_mem c hd)

/-- Leftmost `\d+\.?\d*` match on `ip ++ '.' :: (fp ++ rest)` where `ip` is a
non-empty digit run, `fp` a digit run, and `rest` starts with a non-digit (or
is empty): the integer part is `ip` and the fractional part `fp`. -/
theorem findFirstNumber_token (ip fp rest : List Char)
    (hip : ip ≠ []) (hipd : ∀ c ∈ ip, c.isDigit = true) (hfp : ∀ c ∈ fp, c.isDigit = true)
    (hrest : rest.takeWhile Char.isDigit = []) :
    findFirstNumber (ip ++ '.' :: (fp ++ rest)) = Option.some (ip, fp) := by
  cases ip with
  | nil => exact absurd rfl hip
  | cons c ip' =>
    have hc : c.isDigit = true := hipd c (List.mem_cons_self c ip')
    have hX : ('.' :: (fp ++ rest)).takeWhile Char.isDigit = [] := by
      rw [List.takeWhile_cons]
      rfl
    have hT : (c :: (ip' ++ '.' :: (fp ++ rest))).takeWhile Char.isDigit = c :: ip' := by
      rw [← List.cons_append]
      exact run_take (c :: ip') _ hipd hX
    have hD : (c :: (ip' ++ '.' :: (fp ++ rest))).dropWhile Char.isDigit =
        '.' :: (fp ++ rest) := by
      rw [← List.cons_append]
      exact run_drop (c :: ip') _ hipd hX
    rw [List.cons_append]
    simp only [findFirstNumber, hc, if_true, hT, hD]
    rw [run_take fp rest hfp hrest]

/-- Leftmost `\d+\.?\d*` match on `ip ++ rest` where `ip` is a non-empty
digit run and `rest` consists only of dots: the match is `ip` with an empty
fractional part. -/
theorem findFirstNumber_intToken (ip rest : List Char)
    (hip : ip ≠ []) (hipd : ∀ c ∈ ip, c.isDigit = true) (hrest : ∀ c ∈ rest, c = '.') :
    findFirstNumber (ip ++ rest) = Option.some (ip, []) := by
  cases ip with
  | nil => exact absurd rfl hip
  | cons c ip' =>
    have hc : c.isDigit = true := hipd c (List.mem_cons_self c ip')
    have hrd : ∀ c ∈ rest, Char.isDigit c = false := by
      intro d hd
      rw [hrest d hd]
      rfl
    have hX : rest.takeWhile Char.isDigit = [] := takeWhile_eq_nil_of_head rest hrd
    have hT : (c :: (ip' ++ rest)).takeWhile Char.isDigit = c :: ip' := by
      rw [← List.cons_append]
      exact run_take (c :: ip') _ hipd hX
    have hD : (c :: (ip' ++ rest)).dropWhile Char.isDigit = rest := by
      rw [← List.cons_append]
      exact run_drop (c :: ip') _ hipd hX
    rw [List.cons_append]
    simp only [findFirstNumber, hc, if_true, hT, hD]
    cases rest with
    | nil => rfl
    | cons d rest' =>
      have hd : d = '.' := hrest d (List.mem_cons_self d rest')
      subst hd
      have h0 : rest'.takeWhile Char.isDigit = [] :=
        takeWhile_eq_nil_of_head rest' fun e he => hrd e (List.mem_cons_of_mem '.' he)
      simp [h0]

theorem cleanChars_append (a b : List Char) :
    cleanChars (a ++ b) = cleanChars a ++ cleanChars b := by
  simp [cleanChars, List.filter_append]

theorem cleanChars_cons_dot (l : List Char) : cleanChars ('.' :: l) = '.' :: cleanChars l := by
  simp [cleanChars]

theorem cleanChars_digits :
    ∀ (l : List Char), (∀ c ∈ l, c.isDigit = true) → cleanChars l = l
  | [], _ => rfl
  | c :: l, h => by
    have hc : c.isDigit = true := h c (List.mem_cons_self c l)
    have hcomma : (c == ',') = false := by
      cases hcc : c == ',' with
      | false => rfl
      | true =>
        have : c = ',' := beq_iff_eq.mp hcc
        rw [this] at hc
        exact absurd hc (by decide)
    simp only [cleanChars, List.filter_cons, hc, Bool.true_or, if_true, List.map_cons, hcomma,
      Bool.false_eq_true, if_false]
    have := cleanChars_digits l fun d hd => h d (List.mem_cons_of_mem c hd)
    simp only [cleanChars] at this
    rw [this]

theorem cleanChars_nondigit_all_dot (l : List Char) (h : ∀ c ∈ l, c.isDigit = false) :
    ∀ d ∈ cleanChars l, d = '.' := by
  intro d hd
  simp only [cleanChars, List.mem_map, List.mem_filter] at hd
  rcases hd with ⟨c, ⟨hcl, hcf⟩, hcd⟩
  rw [h c hcl] at hcf
  simp only [Bool.false_or, Bool.or_eq_true, beq_iff_eq] at hcf
  rcases hcf with rfl | rfl
  · rw [← hcd]
    rfl
  · rw [← hcd]
    rfl

theorem cleanChars_nondigit_stays_nondigit (l : List Char) (h : ∀ c ∈ l, c.isDigit = false) :
    ∀ d ∈ cleanChars l, d.isDigit = false := by
  intro d hd
  rw [cleanChars_nondigit_all_dot l h d hd]
  rfl

/-- C2.  The value `extract_price` returns on a string input: a decimal
number, preceded by currency symbols (any characters without digits) and
followed by digit-free text, is extracted exactly — both in its fractional
`ip.fp` form (first conjunct) and in its integer form (second conjunct) —
and empty or digit-free input yields `0.0` (third conjunct). -/
theorem spec_c2_extract_price_value :
    (∀ pre ip fp suf : List Char,
        (∀ c ∈ pre, c.isDigit = false) → (∀ c ∈ suf, c.isDigit = false) →
        ip ≠ [] → (∀ c ∈ ip, c.isDigit = true) → (∀ c ∈ fp, c.isDigit = true) →
        extract_price (PriceInput.str (String.mk (pre ++ (ip ++ '.' :: (fp ++ suf))))) =
          tokenToRat ip fp) ∧
      (∀ pre ip suf : List Char,
        (∀ c ∈ pre, c.isDigit = false) → (∀ c ∈ suf, c.isDigit = false) →
        ip ≠ [] → (∀ c ∈ ip, c.isDigit = true) →
        extract_price (PriceInput.str (String.mk (pre ++ (ip ++ suf)))) =
          (digitsToNat ip : ℚ)) ∧
      (∀ s : List Char, (∀ c ∈ s, c.isDigit = false) →
        extract_price (PriceInput.str (String.mk s)) = 0) := by
  refine ⟨?_, ?_, ?_⟩
  · intro pre ip fp suf hpre hsuf hip hipd hfpd
    have hne : pre ++ (ip ++ '.' :: (fp ++ suf)) ≠ [] := by
      intro h0
      rcases List.append_eq_nil.mp (List.append_eq_nil.mp h0).2 with ⟨h2, -⟩
      exact hip h2
    unfold extract_price
    rw [if_neg (by simp [pyFalsyPrice, isEmpty_false_of_ne_nil hne])]
    show (match findFirstNumber (cleanChars (pre ++ (ip ++ '.' :: (fp ++ suf)))) with
      | Option.some (ip, fp) => tokenToRat ip fp
      | Option.none => 0) = tokenToRat ip fp
    have hclean : cleanChars (pre ++ (ip ++ '.' :: (fp ++ suf))) =
        cleanChars pre ++ (ip ++ '.' :: (fp ++ cleanChars suf)) := by
      rw [cleanChars_append, cleanChars_append, cleanChars_digits ip hipd,
        cleanChars_cons_dot, cleanChars_append, cleanChars_digits fp hfpd]
    rw [hclean,
      findFirstNumber_append_nondigit (cleanChars pre) _
        (cleanChars_nondigit_stays_nondigit pre hpre),
      findFirstNumber_token ip fp (cleanChars suf) hip hipd hfpd
        (takeWhile_eq_nil_of_head _ (cleanChars_nondigit_stays_nondigit suf hsuf))]
  · intro pre ip suf hpre hsuf hip hipd
    have hne : pre ++ (ip ++ suf) ≠ [] := by
      intro h0
      rcases List.append_eq_nil.mp (List.append_eq_nil.mp h0).2 with ⟨h2, -⟩
      exact hip h2
    unfold extract_price
    rw [if_neg (by simp [pyFalsyPrice, isEmpty_false_of_ne_nil hne])]
    show (match findFirstNumber (cleanChars (pre ++ (ip ++ suf))) with
      | Option.some (ip, fp) => tokenToRat ip fp
      | Option.none => (0 : ℚ)) = (digitsToNat ip : ℚ)
    have hclean : cleanChars (pre ++ (ip ++ suf)) =
        cleanChars pre ++ (ip ++ cleanChars suf) := by
      rw [cleanChars_append, cleanChars_append, cleanChars_digits ip hipd]
    rw [hclean,
      findFirstNumber_append_nondigit (cleanChars pre) _
        (cleanChars_nondigit_stays_nondigit pre hpre),
      findFirstNumber_intToken ip (cleanChars suf) hip hipd
        (cleanChars_nondigit_all_dot suf hsuf)]
    simp [tokenToRat, digitsToNat]
  · intro s hs
    unfold extract_price
    cases hse : s.isEmpty with
    | true => rw [if_pos (by simp [pyFalsyPrice, hse])]
    | false =>
      rw [if_neg (by simp [pyFalsyPrice, hse])]
      show (match findFirstNumber (cleanChars s) with
        | Option.some (ip, fp) => tokenToRat ip fp
        | Option.none => (0 : ℚ)) = (0 : ℚ)
      have h1 : findFirstNumber (cleanChars s) = Option.none := by
        have h0 := findFirstNumber_append_nondigit (cleanChars s) []
          (cleanChars_nondigit_stays_nondigit s hs)
        rw [List.append_nil] at h0
        exact h0
      rw [h1]

/-- Witness for C2: the currency-prefixed decimal `"$12.99"` is parsed to
`12.99` exactly, and the digit-free `"abc"` yields `0`. -/
theorem spec_c2_witness :
    extract_price (PriceInput.str (String.mk ("$".data ++ ("12".data ++ '.' :: ("99".data ++ []))))) =
        tokenToRat "12".data "99".data ∧
      tokenToRat "12".data "99".data = 1299 / 100 ∧
      extract_price (PriceInput.str (String.mk "abc".data)) = 0 :=
  ⟨spec_c2_extract_price_value.1 "$".data "12".data "99".data [] (by decide) (by decide)
      (by decide) (by decide) (by decide),
    by set_option maxRecDepth 4000 in with_unfolding_all decide,
    spec_c2_extract_price_value.2.2 "abc".data (by decide)⟩

/-! ### C1: end-to-end pipeline on a canned response -/

theorem filterMap_buildProduct (minP maxP : ℚ) :
    ∀ rs : List RawProduct,
      rs.filterMap (buildProduct minP maxP) = (rs.filter (inBand minP maxP)).map mkRecord
  | [] => rfl
  | r :: rs => by
    cases h : inBand minP maxP r with
    | true =>
      simp only [List.filterMap_cons, List.filter_cons, h, buildProduct, if_true, if_pos,
        List.map_cons]
      rw [filterMap_buildProduct minP maxP rs]
    | false =>
      simp only [List.filterMap_cons, List.filter_cons, h, buildProduct, Bool.false_eq_true,
        if_false]
      rw [filterMap_buildProduct minP maxP rs]

/-- C1.  For every parsed search response whose `organic_results` hold 6
entries, exactly 3 of which pass the price band, `fetch_amazon_products` with
the default requested count 4 returns exactly the records built from those 3
entries (a permutation of them), of length 3, sorted descending by
`(rating, reviews_count)`, and each carrying the normalized price string
derived from its normalized price. -/
theorem spec_c1_pipeline_three_in_band (rs : List RawProduct) (minP maxP : ℚ)
    (hlen : rs.length = 6)
    (hband : (rs.filter (inBand minP maxP)).length = 3) :
    (fetch_amazon_products (ApiResponse.success (Option.some rs)) minP maxP 4).Perm
        ((rs.filter (inBand minP maxP)).map mkRecord) ∧
      (fetch_amazon_products (ApiResponse.success (Option.some rs)) minP maxP 4).length = 3 ∧
      List.Sorted keyGe (fetch_amazon_products (ApiResponse.success (Option.some rs)) minP maxP 4) ∧
      ∀ p ∈ fetch_amazon_products (ApiResponse.success (Option.some rs)) minP maxP 4,
        p.price_str = priceString p.price := by
  have hL : rs.filterMap (buildProduct minP maxP) =
      (rs.filter (inBand minP maxP)).map mkRecord := filterMap_buildProduct minP maxP rs
  have hLlen : (rs.filterMap (buildProduct minP maxP)).length = 3 := by
    rw [hL, List.length_map, hband]
  have hslen : (List.insertionSort keyGe (rs.filterMap (buildProduct minP maxP))).length = 3 := by
    rw [List.length_insertionSort, hLlen]
  have hfetch : fetch_amazon_products (ApiResponse.success (Option.some rs)) minP maxP 4 =
      List.insertionSort keyGe (rs.filterMap (buildProduct minP maxP)) := by
    show rankProducts (rs.filterMap (buildProduct minP maxP)) 4 = _
    unfold rankProducts
    exact List.take_of_length_le (by rw [hslen]; norm_num)
  rw [hfetch]
  refine ⟨?_, hslen, List.sorted_insertionSort keyGe _, ?_⟩
  · rw [← hL]
    exact List.perm_insertionSort keyGe _
  · intro p hp
    have hpL : p ∈ rs.filterMap (buildProduct minP maxP) :=
      (List.mem_insertionSort keyGe).mp hp
    rw [hL] at hpL
    rcases List.mem_map.mp hpL with ⟨r, -, hr⟩
    rw [← hr]
    rfl

/-- Canned response for the C1 witness: 6 organic results; with the band
`[10, 100]` exactly the first three are kept (prices 12.99, 45.5, 20;
the others cost 150, 5 and 9.99). -/
def rawSix : List RawProduct :=
  [{ rawMalformed with
      price_str := PriceInput.str "$12.99",
      rating := Option.some (NumOrStr.str "4.5 out of 5"),
      ratings_total := Option.some (NumOrStr.str "1,234") },
    { rawMalformed with
      price_str := PriceInput.str "45,5 €",
      rating := Option.some (NumOrStr.num 4),
      ratings_total := Option.some (NumOrStr.num 77) },
    { rawMalformed with
      price_str := PriceInput.none,
      price := Option.some (PriceInput.str "20"),
      rating := Option.some (NumOrStr.num 5),
      ratings_total := Option.none },
    { rawMalformed with price_str := PriceInput.str "150" },
    { rawMalformed with price_str := PriceInput.list ["5", "9"] },
    { rawMalformed with
      price_str := PriceInput.str "9.99",
      rating := Option.some (NumOrStr.num 5),
      ratings_total := Option.some (NumOrStr.num 999) }]

/-- Witness for C1 on `rawSix` with band `[10, 100]`: both hypotheses hold and
the pipeline returns the three in-band records, ranked. -/
theorem spec_c1_witness :
    rawSix.length = 6 ∧
      (rawSix.filter (inBand 10 100)).length = 3 ∧
      ((fetch_amazon_products (ApiResponse.success (Option.some rawSix)) 10 100 4).Perm
          ((rawSix.filter (inBand 10 100)).map mkRecord) ∧
        (fetch_amazon_products (ApiResponse.success (Option.some rawSix)) 10 100 4).length = 3 ∧
        List.Sorted keyGe (fetch_amazon_products (ApiResponse.success (Option.some rawSix)) 10 100 4) ∧
        ∀ p ∈ fetch_amazon_products (ApiResponse.success (Option.some rawSix)) 10 100 4,
          p.price_str = priceString p.price) :=
  ⟨by decide,
    by set_option maxRecDepth 8000 in with_unfolding_all decide,
    spec_c1_pipeline_three_in_band rawSix 10 100 (by decide)
      (by set_option maxRecDepth 8000 in with_unfolding_all decide)⟩

/-! ### C3: intent extraction -/

/-- Characters that can appear in a captured query without interacting with
the matcher: not whitespace, not a dot, not a newline.  Letters, digits and
most punctuation qualify. -/
def plainChar (c : Char) : Bool :=
  !isWs c && !(c == '.') && !(c == '\n')

theorem plainChar_props {c : Char} (h : plainChar c = true) :
    isWs c = false ∧ c ≠ '.' ∧ c ≠ '\n' := by
  unfold plainChar at h
  rcases Bool.and_eq_true_iff.mp h with ⟨h12, h3⟩
  rcases Bool.and_eq_true_iff.mp h12 with ⟨h1, h2⟩
  refine ⟨by simpa using h1, ?_, ?_⟩
  · intro hc
    rw [hc] at h2
    exact absurd h2 (by decide)
  · intro hc
    rw [hc] at h3
    exact absurd h3 (by decide)

theorem checkTerm_cons_false {c : Char} (rs : List Char)
    (h1 : isWs c = false) (h2 : c ≠ '.') (h3 : c ≠ '\n') : checkTerm (c :: rs) = false := by
  have e2 : (c == '.') = false := beq_eq_false_iff_ne.mpr h2
  have e3 : (c == '\n') = false := beq_eq_false_iff_ne.mpr h3
  unfold checkTerm termAlt headDot atEnd
  simp [List.takeWhile_cons, h1, e2, e3]

/-- The lazy group `(.+?)` walks over a block of plain characters without the
terminator ever matching, accumulating them as content. -/
theorem lazyLoop_append_plain :
    ∀ (q acc rest : List Char), (∀ c ∈ q, plainChar c = true) →
      lazyLoop acc (q ++ rest) = lazyLoop (acc ++ q) rest
  | [], acc, rest, _ => by simp
  | c :: q, acc, rest, h => by
    rcases plainChar_props (h c (List.mem_cons_self c q)) with ⟨h1, h2, h3⟩
    rw [List.cons_append]
    show lazyLoop acc (c :: (q ++ rest)) = _
    have hterm : checkTerm (c :: (q ++ rest)) = false := checkTerm_cons_false _ h1 h2 h3
    rw [show lazyLoop acc (c :: (q ++ rest)) =
        (if checkTerm (c :: (q ++ rest)) then Option.some acc
         else if c = '\n' then Option.none
         else lazyLoop (acc ++ [c]) (q ++ rest)) from rfl]
    rw [hterm, if_neg (by simp), if_neg h3]
    rw [lazyLoop_append_plain q (acc ++ [c]) rest fun d hd => h d (List.mem_cons_of_mem c hd)]
    simp

theorem dropLit?_append : ∀ (p r : List Char), dropLit? p (p ++ r) = Option.some r
  | [], r => rfl
  | c :: p, r => by
    rw [List.cons_append]
    show (if c = c then dropLit? p (p ++ r) else Option.none) = Option.some r
    rw [if_pos rfl, dropLit?_append p r]

theorem dropLit?_some_append :
    ∀ {p cs r : List Char}, dropLit? p cs = Option.some r → cs = p ++ r := by
  intro p
  induction p with
  | nil =>
    intro cs r h
    simp only [dropLit?, Option.some.injEq] at h
    rw [h, List.nil_append]
  | cons a ps ih =>
    intro cs r h
    cases cs with
    | nil => simp [dropLit?] at h
    | cons c cs' =>
      by_cases hac : a = c
      · subst hac
        simp only [dropLit?, if_pos rfl] at h
        rw [List.cons_append, ih h]
      · simp [dropLit?, hac] at h

/-- A match attempted at the current position succeeds only when the trigger
word starts there. -/
theorem matchAt_none_of_not_isPre {stem : List Char} (optS : Bool) {cs : List Char}
    (h : ¬ stem <+: cs) : matchAt stem optS cs = Option.none := by
  cases hd : dropLit? stem cs with
  | none => simp [matchAt, hd]
  | some r =>
    exact absurd ⟨r, (dropLit?_some_append hd).symm⟩ h

/-- `re.search` fails when the trigger word occurs nowhere in the text. -/
theorem searchFrom_eq_none (stem : List Char) (optS : Bool) :
    ∀ cs : List Char, ¬ stem <:+: cs → searchFrom stem optS cs = Option.none
  | [], h => by
    have hp : ¬ stem <+: ([] : List Char) := fun hpre => h hpre.isInfix
    show matchAt stem optS [] = Option.none
    exact matchAt_none_of_not_isPre optS hp
  | c :: rs, h => by
    rw [List.infix_cons_iff] at h
    push_neg at h
    show (match matchAt stem optS (c :: rs) with
      | Option.some q => Option.some q
      | Option.none => searchFrom stem optS rs) = Option.none
    rw [matchAt_none_of_not_isPre optS h.1]
    exact searchFrom_eq_none stem optS rs h.2

/-- A successful match at the scan's current position is the search result. -/
theorem searchFrom_pos_zero {stem : List Char} {optS : Bool} {cs q : List Char}
    (h : matchAt stem optS cs = Option.some q) :
    searchFrom stem optS cs = Option.some q := by
  cases cs with
  | nil => exact h
  | cons c rs =>
    show (match matchAt stem optS (c :: rs) with
      | Option.some q => Option.some q
      | Option.none => searchFrom stem optS rs) = Option.some q
    rw [h]

theorem dropWhile_eq_self_of_all {p : Char → Bool} :
    ∀ {l : List Char}, (∀ c ∈ l, p c = false) → l.dropWhile p = l := by
  intro l h
  cases l with
  | nil => rfl
  | cons c rs =>
    rw [List.dropWhile_cons, h c (List.mem_cons_self c rs)]
    rfl

theorem pyStrip_of_plain (l : List Char) (h : ∀ c ∈ l, plainChar c = true) :
    pyStrip l = l := by
  have hws : ∀ c ∈ l, isWs c = false := fun c hc => (plainChar_props (h c hc)).1
  unfold pyStrip
  rw [dropWhile_eq_self_of_all hws,
    dropWhile_eq_self_of_all (fun c hc => hws c (List.mem_reverse.mp hc)),
    List.reverse_reverse]

theorem lazyLoop_of_term {acc rest : List Char} (h : checkTerm rest = true) :
    lazyLoop acc rest = Option.some acc := by
  cases rest with
  | nil => simp [lazyLoop, h]
  | cons c rs => simp [lazyLoop, h]

theorem lazyContent_plain (lq rest : List Char) (hlq : lq ≠ [])
    (hplain : ∀ c ∈ lq, plainChar c = true) (hterm : checkTerm rest = true) :
    lazyContent (lq ++ rest) = Option.some lq := by
  cases lq with
  | nil => exact absurd rfl hlq
  | cons c0 lq' =>
    rcases plainChar_props (hplain c0 (List.mem_cons_self c0 lq')) with ⟨-, -, h3⟩
    rw [List.cons_append]
    show (if c0 = '\n' then Option.none else lazyLoop [c0] (lq' ++ rest)) = _
    rw [if_neg h3,
      lazyLoop_append_plain lq' [c0] rest fun d hd => hplain d (List.mem_cons_of_mem c0 hd),
      lazyLoop_of_term hterm]
    rfl

theorem tailMatch_space_plain (lq rest : List Char) (hlq : lq ≠ [])
    (hplain : ∀ c ∈ lq, plainChar c = true) (hterm : checkTerm rest = true) :
    tailMatch (' ' :: (lq ++ rest)) = Option.some lq := by
  have htw : (' ' :: (lq ++ rest)).takeWhile isWs = [' '] := by
    cases lq with
    | nil => exact absurd rfl hlq
    | cons c0 lq' =>
      rcases plainChar_props (hplain c0 (List.mem_cons_self c0 lq')) with ⟨h1, -, -⟩
      rw [List.takeWhile_cons, List.cons_append, List.takeWhile_cons, h1,
        show isWs ' ' = true from rfl]
      simp
  unfold tailMatch
  rw [htw]
  show (match lazyContent ((' ' :: (lq ++ rest)).drop 1) with
    | Option.some q => Option.some q
    | Option.none => tryWs (' ' :: (lq ++ rest)) 0) = Option.some lq
  rw [show (' ' :: (lq ++ rest)).drop 1 = lq ++ rest from rfl,
    lazyContent_plain lq rest hlq hplain hterm]

/-- Full match of a trigger pattern `stem` + `s?` at a position where the text
reads `stem ++ "s " ++ lq ++ rest` with `lq` a non-empty block of plain
characters and the terminator matching at `rest`: the captured query is
`lq`. -/
theorem matchAt_trigger (stem lq rest : List Char) (hlq : lq ≠ [])
    (hplain : ∀ c ∈ lq, plainChar c = true) (hterm : checkTerm rest = true) :
    matchAt stem true (stem ++ ('s' :: ' ' :: (lq ++ rest))) = Option.some lq := by
  show (match dropLit? stem (stem ++ ('s' :: ' ' :: (lq ++ rest))) with
    | Option.none => Option.none
    | Option.some r =>
      if true then
        match r with
        | 's' :: r2 =>
          (match tailMatch r2 with
           | Option.some q => Option.some q
           | Option.none => tailMatch r)
        | _ => tailMatch r
      else tailMatch r) = Option.some lq
  rw [dropLit?_append]
  show (match tailMatch (' ' :: (lq ++ rest)) with
    | Option.some q => Option.some q
    | Option.none => tailMatch ('s' :: ' ' :: (lq ++ rest))) = Option.some lq
  rw [tailMatch_space_plain lq rest hlq hplain hterm]

/-- `re.search` of the pattern `cherchons?\s+(.+?)(?:…)` on a text that opens
with `"cherchons "` followed by a plain query block and a terminator: it
matches at position 0 and captures the block. -/
theorem searchFrom_cherchons (lq rest : List Char) (hlq : lq ≠ [])
    (hplain : ∀ c ∈ lq, plainChar c = true) (hterm : checkTerm rest = true) :
    searchFrom "cherchon".data true ("cherchons ".data ++ (lq ++ rest)) = Option.some lq := by
  have he : "cherchons ".data ++ (lq ++ rest) =
      "cherchon".data ++ ('s' :: ' ' :: (lq ++ rest)) := by
    rw [show "cherchons ".data = "cherchon".data ++ ['s', ' '] from rfl, List.append_assoc]
    rfl
  rw [he]
  exact searchFrom_pos_zero (matchAt_trigger "cherchon".data lq rest hlq hplain hterm)

/-- Splitting a literal match over an append: either the literal is consumed
inside the first part, or the first part is exhausted and a non-empty rest of
the literal continues into the second part. -/
theorem dropLit?_append_cases :
    ∀ (p s rest r : List Char), dropLit? p (s ++ rest) = Option.some r →
      (∃ s2, s = p ++ s2 ∧ r = s2 ++ rest) ∨
        (∃ p2, p2 ≠ [] ∧ p = s ++ p2 ∧ dropLit? p2 rest = Option.some r)
  | [], s, rest, r, h => by
    left
    refine ⟨s, (List.nil_append s).symm, ?_⟩
    simp only [dropLit?, Option.some.injEq] at h
    rw [h]
  | a :: ps, [], rest, r, h => by
    right
    exact ⟨a :: ps, List.cons_ne_nil a ps, (List.nil_append _).symm, h⟩
  | a :: ps, b :: s', rest, r, h => by
    rw [List.cons_append] at h
    by_cases hab : a = b
    · subst hab
      simp only [dropLit?, if_pos rfl] at h
      rcases dropLit?_append_cases ps s' rest r h with ⟨s2, hs2, hr⟩ | ⟨p2, hne, hp2, hd⟩
      · left
        exact ⟨s2, by rw [List.cons_append, ← hs2], hr⟩
      · right
        exact ⟨p2, hne, by rw [List.cons_append, ← hp2], hd⟩
    · simp only [dropLit?, if_neg hab] at h
      exact Option.noConfusion h

/-- The budget pattern cannot match at any position inside a block of plain
characters directly followed by the text `" entre 10 et 50"`: an `"entre"`
occurrence inside the block is never followed by whitespace-then-digits. -/
theorem budgetMatchAt_plain_none (s : List Char) (hs : ∀ c ∈ s, plainChar c = true) :
    budgetMatchAt (s ++ " entre 10 et 50".data) = Option.none := by
  cases hd : dropLit? "entre".data (s ++ " entre 10 et 50".data) with
  | none => simp [budgetMatchAt, hd]
  | some r1 =>
    rcases dropLit?_append_cases "entre".data s " entre 10 et 50".data r1 hd with
      ⟨s2, hs2, hr⟩ | ⟨p2, hne, hp2, hdrop⟩
    · subst hr
      cases s2 with
      | nil =>
        simp only [budgetMatchAt, hd]
        decide
      | cons c s2' =>
        have hc : plainChar c = true := hs c (by rw [hs2]; simp)
        have hws : isWs c = false := (plainChar_props hc).1
        have htw : ((c :: s2') ++ " entre 10 et 50".data).takeWhile isWs = [] := by
          rw [List.cons_append, List.takeWhile_cons, hws]
          rfl
        simp only [budgetMatchAt, hd, htw]
        rfl
    · cases p2 with
      | nil => exact absurd rfl hne
      | cons a p2' =>
        have ha : a ∈ "entre".data := by
          rw [hp2]
          exact List.mem_append_right s (List.mem_cons_self a p2')
        have hsp : a ≠ ' ' := by
          have : a = 'e' ∨ a = 'n' ∨ a = 't' ∨ a = 'r' ∨ a = 'e' ∨ False := by
            simpa using ha
          rcases this with rfl | rfl | rfl | rfl | rfl | h0
          · decide
          · decide
          · decide
          · decide
          · decide
          · exact absurd h0 not_false
        rw [show " entre 10 et 50".data = ' ' :: "entre 10 et 50".data from rfl] at hdrop
        simp only [dropLit?, if_neg hsp] at hdrop
        exact Option.noConfusion hdrop

theorem budgetSearchFrom_cons_none (c : Char) (rs : List Char)
    (h : budgetMatchAt (c :: rs) = Option.none) :
    budgetSearchFrom (c :: rs) = budgetSearchFrom rs := by
  show (match budgetMatchAt (c :: rs) with
    | Option.some b => Option.some b
    | Option.none => budgetSearchFrom rs) = budgetSearchFrom rs
  rw [h]

theorem budgetSearchFrom_plain_skip :
    ∀ (s : List Char), (∀ c ∈ s, plainChar c = true) →
      budgetSearchFrom (s ++ " entre 10 et 50".data) =
        budgetSearchFrom " entre 10 et 50".data
  | [], _ => rfl
  | c :: s', h => by
    have h0 : budgetMatchAt (c :: (s' ++ " entre 10 et 50".data)) = Option.none := by
      have h1 := budgetMatchAt_plain_none (c :: s') h
      rw [List.cons_append] at h1
      exact h1
    rw [List.cons_append, budgetSearchFrom_cons_none _ _ h0]
    exact budgetSearchFrom_plain_skip s' fun d hd => h d (List.mem_cons_of_mem c hd)

/-- The budget scan passes over the leading `"cherchons "` of the message: no
suffix of it starts a budget match (the only `'e'` is followed by
`"rchons"`). -/
theorem budgetSearchFrom_skip_cherchons (X : List Char) :
    budgetSearchFrom ("cherchons ".data ++ X) = budgetSearchFrom X := by
  show budgetSearchFrom
      ('c' :: 'h' :: 'e' :: 'r' :: 'c' :: 'h' :: 'o' :: 'n' :: 's' :: ' ' :: X) = _
  rw [budgetSearchFrom_cons_none 'c'
      ('h' :: 'e' :: 'r' :: 'c' :: 'h' :: 'o' :: 'n' :: 's' :: ' ' :: X) rfl]
  rw [budgetSearchFrom_cons_none 'h'
      ('e' :: 'r' :: 'c' :: 'h' :: 'o' :: 'n' :: 's' :: ' ' :: X) rfl]
  rw [budgetSearchFrom_cons_none 'e' ('r' :: 'c' :: 'h' :: 'o' :: 'n' :: 's' :: ' ' :: X) rfl]
  rw [budgetSearchFrom_cons_none 'r' ('c' :: 'h' :: 'o' :: 'n' :: 's' :: ' ' :: X) rfl]
  rw [budgetSearchFrom_cons_none 'c' ('h' :: 'o' :: 'n' :: 's' :: ' ' :: X) rfl]
  rw [budgetSearchFrom_cons_none 'h' ('o' :: 'n' :: 's' :: ' ' :: X) rfl]
  rw [budgetSearchFrom_cons_none 'o' ('n' :: 's' :: ' ' :: X) rfl]
  rw [budgetSearchFrom_cons_none 'n' ('s' :: ' ' :: X) rfl]
  rw [budgetSearchFrom_cons_none 's' (' ' :: X) rfl]
  rw [budgetSearchFrom_cons_none ' ' X rfl]

/-- Only the last turn of the history is inspected. -/
theorem extract_search_intent_concat (pre : List Turn) (t : Turn) :
    extract_search_intent (pre ++ [t]) = extract_search_intent [t] := by
  unfold extract_search_intent
  rw [getLast?_append_singleton]
  rfl

/-- Computation of `extract_search_intent` on a one-turn history, with the
lowered text exposed. -/
theorem extract_search_intent_single (role : String) (cs : List Char) :
    extract_search_intent [{ role := role, content := Option.some (String.mk cs) }] =
      (match searchFrom "cherchon".data true (cs.map Char.toLower) with
       | Option.some q => Option.some (mkIntent q (cs.map Char.toLower))
       | Option.none =>
         match searchFrom "recherche".data false (cs.map Char.toLower) with
         | Option.some q => Option.some (mkIntent q (cs.map Char.toLower))
         | Option.none =>
           match searchFrom "regardon".data true (cs.map Char.toLower) with
           | Option.some q => Option.some (mkIntent q (cs.map Char.toLower))
           | Option.none => Option.none) := rfl

/-- C3.  Behaviour of `extract_search_intent`, in four parts.
(1) A last message `"cherchons X entre 10 et 50"`, for any non-empty query
block `X` of plain characters (no whitespace, dot or newline after
lowering), yields the lowered query with the price band `(10, 50)`.
(2) A last message `"cherchons X"` containing the trigger phrase but whose
lowered text has no budget-pattern match yields the lowered query with the
defaults `(0, 1000)`.
(3) A last message whose lowered text contains none of the three trigger
words yields `None`.
(4) Pattern priority: on `"recherche b. cherchons a."` the first pattern
(`cherchons?…`) wins even though the second (`recherche…`) matches earlier in
the text, so the query is `"a"`. -/
theorem spec_c3_extract_search_intent :
    (∀ (pre : List Turn) (role : String) (q : List Char),
        q ≠ [] → (∀ c ∈ q, plainChar c.toLower = true) →
        extract_search_intent (pre ++ [{ role := role, content := Option.some (String.mk
          ("cherchons ".data ++ (q ++ " entre 10 et 50".data))) }]) =
          Option.some { query := String.mk (q.map Char.toLower), min_price := 10, max_price := 50 }) ∧
      (∀ (pre : List Turn) (role : String) (q : List Char),
        q ≠ [] → (∀ c ∈ q, plainChar c.toLower = true) →
        budgetSearchFrom (("cherchons ".data ++ q).map Char.toLower) = Option.none →
        extract_search_intent (pre ++ [{ role := role, content := Option.some (String.mk
          ("cherchons ".data ++ q)) }]) =
          Option.some { query := String.mk (q.map Char.toLower), min_price := 0, max_price := 1000 }) ∧
      (∀ (pre : List Turn) (role : String) (t : String),
        ¬ "cherchon".data <:+: t.data.map Char.toLower →
        ¬ "recherche".data <:+: t.data.map Char.toLower →
        ¬ "regardon".data <:+: t.data.map Char.toLower →
        extract_search_intent (pre ++ [{ role := role, content := Option.some t }]) =
          Option.none) ∧
      extract_search_intent [{ role := "assistant", content := Option.some "recherche b. cherchons a." }] =
        Option.some { query := "a", min_price := 0, max_price := 1000 } := by
  refine ⟨?_, ?_, ?_, ?_⟩
  · intro pre role q hq hplain
    have hlqne : q.map Char.toLower ≠ [] := by
      intro h0
      exact hq (List.map_eq_nil_iff.mp h0)
    have hplain' : ∀ c ∈ q.map Char.toLower, plainChar c = true := by
      intro c hc
      rcases List.mem_map.mp hc with ⟨d, hd, rfl⟩
      exact hplain d hd
    have htext : ("cherchons ".data ++ (q ++ " entre 10 et 50".data)).map Char.toLower =
        "cherchons ".data ++ (q.map Char.toLower ++ " entre 10 et 50".data) := by
      rw [List.map_append, List.map_append,
        show "cherchons ".data.map Char.toLower = "cherchons ".data from by decide,
        show " entre 10 et 50".data.map Char.toLower = " entre 10 et 50".data from by decide]
    have hsearch := searchFrom_cherchons (q.map Char.toLower) " entre 10 et 50".data
      hlqne hplain' (by decide)
    have hbudget : budgetSearchFrom
        ("cherchons ".data ++ (q.map Char.toLower ++ " entre 10 et 50".data)) =
        Option.some (10, 50) := by
      rw [budgetSearchFrom_skip_cherchons,
        budgetSearchFrom_plain_skip (q.map Char.toLower) hplain']
      decide
    rw [extract_search_intent_concat, extract_search_intent_single]
    simp only [htext, hsearch, mkIntent, hbudget]
    rw [pyStrip_of_plain (q.map Char.toLower) hplain']
    norm_num
  · intro pre role q hq hplain hbud
    have hlqne : q.map Char.toLower ≠ [] := by
      intro h0
      exact hq (List.map_eq_nil_iff.mp h0)
    have hplain' : ∀ c ∈ q.map Char.toLower, plainChar c = true := by
      intro c hc
      rcases List.mem_map.mp hc with ⟨d, hd, rfl⟩
      exact hplain d hd
    have htext : ("cherchons ".data ++ q).map Char.toLower =
        "cherchons ".data ++ (q.map Char.toLower ++ []) := by
      rw [List.map_append, List.append_nil,
        show "cherchons ".data.map Char.toLower = "cherchons ".data from by decide]
    have hsearch := searchFrom_cherchons (q.map Char.toLower) [] hlqne hplain' (by decide)
    rw [htext] at hbud
    rw [extract_search_intent_concat, extract_search_intent_single]
    simp only [htext, hsearch, mkIntent, hbud]
    rw [pyStrip_of_plain (q.map Char.toLower) hplain']
  · intro pre role t h1 h2 h3
    rw [extract_search_intent_concat,
      show (t : String) = String.mk t.data from rfl,
      extract_search_intent_single]
    simp only [searchFrom_eq_none "cherchon".data true _ h1,
      searchFrom_eq_none "recherche".data false _ h2,
      searchFrom_eq_none "regardon".data true _ h3]
  · decide

/-- Witness for C3 at concrete inputs: part (1) on the message
`"cherchons Souris entre 10 et 50"` (one earlier turn in the history), and
part (2) on `"cherchons aspirateur"`. -/
theorem spec_c3_witness :
    ("Souris".data ≠ [] ∧ ∀ c ∈ "Souris".data, plainChar c.toLower = true) ∧
      extract_search_intent [{ role := "user", content := Option.some "bonjour" },
          { role := "assistant", content := Option.some (String.mk
            ("cherchons ".data ++ ("Souris".data ++ " entre 10 et 50".data))) }] =
        Option.some { query := String.mk ("Souris".data.map Char.toLower), min_price := 10, max_price := 50 } ∧
      extract_search_intent [{ role := "assistant", content := Option.some (String.mk
          ("cherchons ".data ++ "aspirateur".data)) }] =
        Option.some { query := String.mk ("aspirateur".data.map Char.toLower), min_price := 0, max_price := 1000 } :=
  ⟨⟨by decide, by decide⟩,
    spec_c3_extract_search_intent.1 [{ role := "user", content := Option.some "bonjour" }]
      "assistant" "Souris".data (by decide) (by decide),
    spec_c3_extract_search_intent.2.1 [] "assistant" "aspirateur".data (by decide) (by decide)
      (by decide)⟩

end App
